import Mathlib

/-!
Verification of the node-query compiler (`src/compiler.ts`, `src/node-query.ts`).

The compiler evaluates a compiled query expression against a TypeScript-like
syntax tree.  We shallowly embed the tree values the compiler manipulates as
`JsValue`: a node carries its type name (`SyntaxKind[node.kind]`), its full
source text (`getFullText()`), its ordered children (`forEachChild`), its own
properties (`hasOwnProperty` / `target[key]`) and its zero-argument callable
members (`typeof target[key] === "function"`, modelled by the value such a
call returns).  Primitive prototype members of non-node values are not part
of the model, except for `length` on strings and arrays, which the queries
rely on.
-/

inductive JsValue where
  | vNull : JsValue
  | vUndef : JsValue
  | vBool : Bool → JsValue
  | vNum : Int → JsValue
  | vStr : String → JsValue
  | vArr : List JsValue → JsValue
  | vNode : (kind : String) → (fullText : String) → (children : List JsValue) →
      (props : List (String × JsValue)) → (methods : List (String × JsValue)) → JsValue

namespace JsValue

/-- JavaScript truthiness test: `!target` in `getTargetNode`. -/
def jsFalsy : JsValue → Bool
  | vNull => true
  | vUndef => true
  | vBool b => !b
  | vNum n => n == 0
  | vStr s => s == ""
  | _ => false

/-- `Array.isArray(node)`. -/
def isArray : JsValue → Bool
  | vArr _ => true
  | _ => false

/-- `target.hasOwnProperty(key)`. -/
def hasOwnProperty (target : JsValue) (key : String) : Bool :=
  match target with
  | vNode _ _ _ props _ => (props.lookup key).isSome
  | vArr _ => key == "length"
  | vStr _ => key == "length"
  | _ => false

/-- `target[key]` for an own property (only queried when `hasOwnProperty`). -/
def getOwnProperty (target : JsValue) (key : String) : JsValue :=
  match target with
  | vNode _ _ _ props _ => (props.lookup key).getD vUndef
  | vArr xs => if key == "length" then vNum xs.length else vUndef
  | vStr s => if key == "length" then vNum s.length else vUndef
  | _ => vUndef

/-- Result of `target[key].call(target)` when `target[key]` is a function;
`none` when no same-named callable member exists. -/
def getMethod? (target : JsValue) (key : String) : Option JsValue :=
  match target with
  | vNode _ _ _ _ methods => methods.lookup key
  | _ => none

/-- `node.forEachChild` enumerates these, in order. -/
def childrenOf : JsValue → List JsValue
  | vNode _ _ cs _ _ => cs
  | _ => []

/-- `node.getFullText()`. -/
def getFullText : JsValue → String
  | vNode _ t _ _ _ => t
  | _ => ""

/-- `SyntaxKind[node.kind]` as a match against a selector's type name:
a non-node value has no `kind`, so the comparison is false there. -/
def kindIs (target : JsValue) (nodeType : String) : Bool :=
  match target with
  | vNode k _ _ _ _ => nodeType == k
  | _ => false

end JsValue

open JsValue

mutual

/-- `childNode === node` in the sibling scans: JavaScript strict identity on
node objects.  Structurally equal values model identical references. -/
def beqJs : JsValue → JsValue → Bool
  | .vNull, .vNull => true
  | .vUndef, .vUndef => true
  | .vBool a, .vBool b => a == b
  | .vNum a, .vNum b => a == b
  | .vStr a, .vStr b => a == b
  | .vArr xs, .vArr ys => beqJsList xs ys
  | .vNode k1 t1 c1 p1 m1, .vNode k2 t2 c2 p2 m2 =>
      k1 == k2 && t1 == t2 && beqJsList c1 c2 && beqJsPairs p1 p2 && beqJsPairs m1 m2
  | _, _ => false

def beqJsList : List JsValue → List JsValue → Bool
  | [], [] => true
  | x :: xs, y :: ys => beqJs x y && beqJsList xs ys
  | _, _ => false

def beqJsPairs : List (String × JsValue) → List (String × JsValue) → Bool
  | [], [] => true
  | (k, v) :: xs, (l, w) :: ys => k == l && beqJs v w && beqJsPairs xs ys
  | _, _ => false

end

/-- Lexicographic comparison of character lists, JavaScript's `<` on
strings (code-unit order; identical to codepoint order on these inputs). -/
def charsLt : List Char → List Char → Bool
  | [], [] => false
  | [], _ :: _ => true
  | _ :: _, [] => false
  | a :: as, b :: bs =>
      if a < b then true
      else if b < a then false
      else charsLt as bs

/-- JavaScript `<` on two strings. -/
def jsStrLt (a b : String) : Bool := charsLt a.data b.data

/-- JavaScript `<=` on two strings: `a <= b` is the negation of `b < a`. -/
def jsStrLe (a b : String) : Bool := !charsLt b.data a.data

/-- Does the first character list start with the second? -/
def charsStartWith : List Char → List Char → Bool
  | _, [] => true
  | [], _ :: _ => false
  | x :: xs, y :: ys => x == y && charsStartWith xs ys

/-- JavaScript `actual.includes(expected)`: the second list occurs
contiguously inside the first. -/
def charsContain : List Char → List Char → Bool
  | [], ys => charsStartWith [] ys
  | x :: xs, ys => charsStartWith (x :: xs) ys || charsContain xs ys

/-- Whitespace for JavaScript's `String.prototype.trim`. -/
def isJsSpace (c : Char) : Bool :=
  c == ' ' || c == '\t' || c == '\n' || c == '\r'

/-- JavaScript `s.trim()`: strip whitespace from both ends. -/
def jsTrim (s : String) : String :=
  String.mk (((s.data.dropWhile isJsSpace).reverse.dropWhile isJsSpace).reverse)

/-- Splitting a character stream on a separator character, accumulating the
current (reversed) piece. -/
def splitChars (sep : Char) : List Char → List Char → List String
  | cur, [] => [String.mk cur.reverse]
  | cur, c :: rest =>
      if c == sep then String.mk cur.reverse :: splitChars sep [] rest
      else splitChars sep (c :: cur) rest

/-- JavaScript `s.split(sep)` for a single-character separator. -/
def jsSplit (s : String) (sep : Char) : List String :=
  splitChars sep [] s.data

/-- JavaScript `parts.join("\n")`. -/
def joinWithNewline : List String → String
  | [] => ""
  | [x] => x
  | x :: rest => x ++ "\n" ++ joinWithNewline rest

/-- JavaScript `s.startsWith(p)`. -/
def jsStartsWith (s p : String) : Bool := charsStartWith s.data p.data

/-- JavaScript `s.endsWith(p)`. -/
def jsEndsWith (s p : String) : Bool := charsStartWith s.data.reverse p.data.reverse

/-- JavaScript `s.includes(p)`. -/
def jsIncludes (s p : String) : Bool := charsContain s.data p.data

/-- One iteration of the `forEach` loop in `Attribute.getTargetNode`:
a falsy target is kept unchanged (`if (!target) return;`), an own property
wins over a callable member, and a segment resolving to neither sets the
target to `null`. -/
def resolveSegment (target : JsValue) (key : String) : JsValue :=
  if target.jsFalsy then target
  else if target.hasOwnProperty key then target.getOwnProperty key
  else
    match target.getMethod? key with
    | some v => v
    | none => vNull

/-- `Attribute.getTargetNode`: split the key on `.` and resolve each
segment in turn. -/
def getTargetNode (node : JsValue) (key : String) : JsValue :=
  (jsSplit key '.').foldl resolveSegment node

mutual

/-- The preorder list of strict descendants of a node: `handleRecursiveChild`
hands each child to the handler and then recurses into it. -/
def descendantsPre : JsValue → List JsValue
  | vNode _ _ cs _ _ => descendantsPreList cs
  | _ => []

/-- The walk of `forEachChild` inside `handleRecursiveChild`: each child,
then its descendants, then the later children. -/
def descendantsPreList : List JsValue → List JsValue
  | [] => []
  | c :: rest => c :: (descendantsPre c ++ descendantsPreList rest)

end

/-! ## The Value family (`Boolean`, `Identifier`, `Null`, `Number`, `String`,
`Undefined`) and `ArrayValue` -/

inductive Value where
  | boolean : Bool → Value
  | identifier : String → Value
  | null : Value
  | number : Int → Value
  | string : String → Value
  | undefined : Value
  deriving DecidableEq, Repr

/-- The shared `Value.actualValue`: renders a resolved target as a string.
An array target has no `getFullText` member and the source would throw a
`TypeError` there; the model returns the empty text (that branch is shielded
by `Array.isArray` checks wherever the source reaches it). -/
def actualValueBase : JsValue → String
  | .vNull => "null"
  | .vUndef => "undefined"
  | .vStr s => s
  | .vNum n => toString n
  | .vBool b => if b then "true" else "false"
  | node => jsTrim node.getFullText

/-- `value.substring(start, end)` of JavaScript: indices are clamped to
`[0, length]` and swapped when out of order. -/
def jsSubstring (s : String) (a b : Int) : String :=
  let len : Int := s.length
  let a' := max 0 (min a len)
  let b' := max 0 (min b len)
  let lo := min a' b'
  let hi := max a' b'
  (((s.toList.drop lo.toNat).take (hi - lo).toNat)).asString

/-- `actualValue` with the `String` override: the `String` literal strips the
surrounding quotes (`value.substring(1, value.length - 1)`), every other
variant uses the shared rendering. -/
def Value.actualValue : Value → JsValue → String
  | .string _, node =>
      let v := actualValueBase node
      jsSubstring v 1 ((v.length : Int) - 1)
  | _, node => actualValueBase node

/-- `expectedValue` of each `Value` subclass. -/
def Value.expectedValue : Value → String
  | .boolean b => if b then "true" else "false"
  | .identifier s => s
  | .null => "null"
  | .number n => toString n
  | .string s => s
  | .undefined => "undefined"

/-- The shared `Value.match`: dispatch on the operator string, with strict
equality of actual and expected as the default arm. -/
def Value.matchDefault (v : Value) (node : JsValue) (op : String) : Bool :=
  let actual := v.actualValue node
  let expected := v.expectedValue
  if op == "^=" then jsStartsWith actual expected
  else if op == "$=" then jsEndsWith actual expected
  else if op == "*=" then jsIncludes actual expected
  else if op == "!=" then actual != expected
  else if op == ">=" then jsStrLe expected actual
  else if op == ">" then jsStrLt expected actual
  else if op == "<=" then jsStrLe actual expected
  else if op == "<" then jsStrLt actual expected
  else actual == expected

/-- `Number.match`: the override drops the affix arms but still compares the
stringified actual and expected values with JavaScript's relational
operators, which on strings are lexicographic. -/
def Value.matchNumber (v : Value) (node : JsValue) (op : String) : Bool :=
  let actual := v.actualValue node
  let expected := v.expectedValue
  if op == "!=" then actual != expected
  else if op == ">=" then jsStrLe expected actual
  else if op == ">" then jsStrLt expected actual
  else if op == "<=" then jsStrLe actual expected
  else if op == "<" then jsStrLt actual expected
  else actual == expected

/-- Virtual dispatch of `match`: `Number` overrides it, every other subclass
inherits the shared implementation. -/
def Value.match (v : Value) (node : JsValue) (op : String) : Bool :=
  match v with
  | .number _ => v.matchNumber node op
  | _ => v.matchDefault node op

/-- `ArrayValue` is the parser's cons-chain of `Value`s; either field can be
absent. -/
inductive ArrayValue where
  | mk : Option Value → Option ArrayValue → ArrayValue

/-- `ArrayValue.expectedValue` flattens the chain into a list. -/
def ArrayValue.expectedValue : ArrayValue → List Value
  | .mk v none => v.toList
  | .mk v (some r) => v.toList ++ r.expectedValue

/-- `ArrayValue.compareEqual`: same length and every positional pair equal. -/
def ArrayValue.compareEqual (actual : List JsValue) (expected : List Value) : Bool :=
  if expected.length != actual.length then false
  else (expected.zip actual).all fun p => p.1.match p.2 "=="

/-- `ArrayValue.compareNotEqual`: lengths differ or some positional pair
differs. -/
def ArrayValue.compareNotEqual (actual : List JsValue) (expected : List Value) : Bool :=
  if expected.length != actual.length then true
  else (expected.zip actual).any fun p => p.1.match p.2 "!="

/-- The elements of an array target (only consulted under `Array.isArray`). -/
def JsValue.arrayElems : JsValue → List JsValue
  | .vArr xs => xs
  | _ => []

/-- `ArrayValue.match`. -/
def ArrayValue.match (av : ArrayValue) (node : JsValue) (op : String) : Bool :=
  let expected := av.expectedValue
  if op == "not_in" then !node.isArray && expected.all fun e => e.match node "!="
  else if op == "in" then !node.isArray && expected.any fun e => e.match node "=="
  else if op == "!=" then node.isArray && ArrayValue.compareNotEqual node.arrayElems expected
  else node.isArray && ArrayValue.compareEqual node.arrayElems expected

/-! ## Selectors -/

mutual

/-- `Selector`: an optional `SimpleSelector` plus an optional relationship
(`">"`, `"+"`, `"~"`). -/
inductive Selector where
  | mk : Option SimpleSelector → Option String → Selector

/-- `SimpleSelector`: a node type name plus an optional attribute list. -/
inductive SimpleSelector where
  | mk : String → Option AttributeList → SimpleSelector

/-- `AttributeList`: a chain of attributes, conjoined. -/
inductive AttributeList where
  | mk : Attribute → Option AttributeList → AttributeList

/-- `Attribute`: a dotted key, a value and an operator string. -/
inductive Attribute where
  | mk : String → AttrValue → String → Attribute

/-- The union type of an attribute's value slot:
`Value | ArrayValue | Selector`. -/
inductive AttrValue where
  | value : Value → AttrValue
  | array : ArrayValue → AttrValue
  | selector : Selector → AttrValue

end

def Selector.simpleSelector : Selector → Option SimpleSelector
  | .mk ss _ => ss

def Selector.relationship : Selector → Option String
  | .mk _ r => r

mutual

/-- `Selector.match`: true when there is no simple selector, else delegate. -/
def Selector.match : Selector → JsValue → Bool
  | .mk ss _, node =>
      match ss with
      | none => true
      | some s => s.match node

/-- `SimpleSelector.match`: `nodeType == SyntaxKind[node.kind]` and the
attribute list (when present) matches. -/
def SimpleSelector.match : SimpleSelector → JsValue → Bool
  | .mk nodeType al, node =>
      node.kindIs nodeType &&
        (match al with
         | none => true
         | some l => l.match node)

/-- `AttributeList.match`: the attribute matches and the rest (when present)
matches. -/
def AttributeList.match : AttributeList → JsValue → Bool
  | .mk attr rest, node =>
      attr.match node &&
        (match rest with
         | none => true
         | some r => r.match node)

/-- `Attribute.match`: resolve the key path, then delegate to the value with
the operator. -/
def Attribute.match : Attribute → JsValue → Bool
  | .mk key value op, node => value.matchOp (getTargetNode node key) op

/-- Dispatch of `this.value.match(target, operator)` over the value union;
a nested `Selector` in value position ignores the operator. -/
def AttrValue.matchOp : AttrValue → JsValue → String → Bool
  | .value v, node, op => v.match node op
  | .array a, node, op => a.match node op
  | .selector s, node, _ => s.match node

end

/-- JavaScript truthiness of `this.relationship` (a string or null). -/
def relTruthy : Option String → Bool
  | none => false
  | some s => s != ""

/-- The scan of `getNextSibling`: walk the parent's children; once the
reference node has been seen (`childNode === node`), the very next child is
the answer. -/
def getNextSiblingAux (node : JsValue) : List JsValue → Bool → Option JsValue
  | [], _ => none
  | c :: rest, matched =>
      if matched then some c
      else getNextSiblingAux node rest (beqJs c node)

/-- `Selector.getNextSibling`, with `node.parent.forEachChild`'s ordered
children supplied explicitly (the functional tree has no parent pointers). -/
def getNextSibling (parentChildren : List JsValue) (node : JsValue) : Option JsValue :=
  getNextSiblingAux node parentChildren false

/-- The scan of `handleSiblings`: every child after the position where the
reference node occurs is handed to the handler. -/
def siblingsAfterAux (node : JsValue) : List JsValue → Bool → List JsValue
  | [], _ => []
  | c :: rest, matched =>
      (if matched then [c] else []) ++ siblingsAfterAux node rest (matched || beqJs c node)

/-- `Selector.handleSiblings`, with the parent's ordered children supplied
explicitly. -/
def handleSiblings (parentChildren : List JsValue) (node : JsValue) : List JsValue :=
  siblingsAfterAux node parentChildren false

/-- `Selector.findNodesByRelationship`: candidates by relationship, filtered
by `match`.  `parentChildren` stands for `node.parent`'s ordered children. -/
def Selector.findNodesByRelationship (sel : Selector) (node : JsValue)
    (parentChildren : List JsValue) : List JsValue :=
  match sel.relationship with
  | some ">" => node.childrenOf.filter sel.match
  | some "+" =>
      match getNextSibling parentChildren node with
      | some sib => if sel.match sib then [sib] else []
      | none => []
  | some "~" => (handleSiblings parentChildren node).filter sel.match
  | _ => []

mutual

/-- `Selector.queryNodes`: a truthy relationship on a non-array input routes
to `findNodesByRelationship`; an array input flat-maps the query over its
elements; otherwise the node itself and (under `descendantMatch`) its
preorder descendants are filtered by `match`. -/
def Selector.queryNodes (sel : Selector) (node : JsValue)
    (parentChildren : List JsValue) (descendantMatch : Bool) : List JsValue :=
  if relTruthy sel.relationship && !node.isArray then
    sel.findNodesByRelationship node parentChildren
  else
    match node with
    | .vArr xs => Selector.queryNodesList sel xs parentChildren descendantMatch
    | _ =>
        (if sel.match node then [node] else []) ++
          (if descendantMatch then (descendantsPre node).filter sel.match else [])

/-- The `flatMap` over an array input, concatenating per-element results. -/
def Selector.queryNodesList (sel : Selector) (nodes : List JsValue)
    (parentChildren : List JsValue) (descendantMatch : Bool) : List JsValue :=
  match nodes with
  | [] => []
  | x :: rest =>
      sel.queryNodes x parentChildren descendantMatch ++
        Selector.queryNodesList sel rest parentChildren descendantMatch

end

/-! ## NodeQuery compilation (`node-query.ts`) -/

/-- A value thrown by the underlying parser: either an `Error` instance with
its message, or some non-`Error` value. -/
inductive ParseThrow where
  | errorObj : String → ParseThrow
  | nonErrorValue : ParseThrow
  deriving DecidableEq

/-- What `parser.parse(nql)` did: produced a compiled expression or threw. -/
inductive ParseOutcome (α : Type) where
  | ok : α → ParseOutcome α
  | raised : ParseThrow → ParseOutcome α

/-- The failure modes of the `NodeQuery` constructor. -/
inductive CompileError where
  | syntaxError : String → CompileError
  | propagated : ParseThrow → CompileError
  deriving DecidableEq

/-- `message.split("\n").slice(0, 3).join("\n")`. -/
def truncateDiagnostic (msg : String) : String :=
  joinWithNewline ((jsSplit msg '\n').take 3)

/-- The `NodeQuery` constructor: keep the parser's expression on success; on
a thrown `Error` whose message starts with `"Lexical error"` or
`"Parse error"`, raise a `SyntaxError` with the truncated diagnostic;
rethrow anything else unchanged. -/
def NodeQuery.compile {α : Type} : ParseOutcome α → Except CompileError α
  | .ok r => .ok r
  | .raised (.errorObj msg) =>
      if jsStartsWith msg "Lexical error" || jsStartsWith msg "Parse error" then
        .error (.syntaxError (truncateDiagnostic msg))
      else
        .error (.propagated (.errorObj msg))
  | .raised .nonErrorValue => .error (.propagated .nonErrorValue)

/-! ## Concrete sample nodes used by witnesses -/

def fooB : JsValue := .vNode "Foo" "b" [] [] []

def barC : JsValue := .vNode "Bar" "c" [] [] []

def fooA : JsValue := .vNode "Foo" "a" [fooB, barC] [] []

def fooE : JsValue := .vNode "Foo" "e" [] [] []

def barD : JsValue := .vNode "Bar" "d" [fooE] [] []

def sampleTree : JsValue := .vNode "Program" "" [fooA, barD] [] []

/-! ## Infrastructure lemmas -/

theorem beqJsList_self_of (xs : List JsValue) (h : ∀ x ∈ xs, beqJs x x = true) :
    beqJsList xs xs = true := by
  induction xs with
  | nil => rfl
  | cons x rest ihr =>
      rw [beqJsList]
      simp only [Bool.and_eq_true]
      exact ⟨h x (by simp), ihr fun y hy => h y (by simp [hy])⟩

theorem beqJsPairs_self_of (xs : List (String × JsValue))
    (h : ∀ p ∈ xs, beqJs p.2 p.2 = true) : beqJsPairs xs xs = true := by
  induction xs with
  | nil => rfl
  | cons p rest ihr =>
      obtain ⟨k, v⟩ := p
      rw [beqJsPairs]
      simp only [Bool.and_eq_true, beq_self_eq_true, true_and]
      exact ⟨h ⟨k, v⟩ (by simp), ihr fun q hq => h q (by simp [hq])⟩

theorem beqJs_refl_aux : ∀ (n : Nat) (v : JsValue), sizeOf v ≤ n → beqJs v v = true := by
  intro n
  induction n using Nat.strong_induction_on with
  | _ n ih =>
    intro v hv
    match v with
    | .vNull => rfl
    | .vUndef => rfl
    | .vBool b => simp [beqJs]
    | .vNum a => simp [beqJs]
    | .vStr s => simp [beqJs]
    | .vArr xs =>
        rw [beqJs]
        apply beqJsList_self_of
        intro x hx
        have hx1 : sizeOf x < sizeOf xs := List.sizeOf_lt_of_mem hx
        have hx2 : sizeOf (JsValue.vArr xs) = 1 + sizeOf xs := by simp
        exact ih (sizeOf x) (by omega) x le_rfl
    | .vNode k t cs ps ms =>
        have hsz : sizeOf (JsValue.vNode k t cs ps ms) =
            1 + sizeOf k + sizeOf t + sizeOf cs + sizeOf ps + sizeOf ms := by simp
        have h1 : beqJsList cs cs = true := by
          apply beqJsList_self_of
          intro x hx
          have := List.sizeOf_lt_of_mem hx
          exact ih (sizeOf x) (by omega) x le_rfl
        have h2 : beqJsPairs ps ps = true := by
          apply beqJsPairs_self_of
          intro p hp
          have hp1 := List.sizeOf_lt_of_mem hp
          obtain ⟨a, b⟩ := p
          have hp2 : sizeOf ((a, b) : String × JsValue) = 1 + sizeOf a + sizeOf b := rfl
          exact ih (sizeOf b) (by simp at hp1; omega) b le_rfl
        have h3 : beqJsPairs ms ms = true := by
          apply beqJsPairs_self_of
          intro p hp
          have hp1 := List.sizeOf_lt_of_mem hp
          obtain ⟨a, b⟩ := p
          have hp2 : sizeOf ((a, b) : String × JsValue) = 1 + sizeOf a + sizeOf b := rfl
          exact ih (sizeOf b) (by simp at hp1; omega) b le_rfl
        rw [beqJs]
        simp [h1, h2, h3]

/-- JavaScript `===` is reflexive: a reference is identical to itself. -/
theorem beqJs_refl (v : JsValue) : beqJs v v = true :=
  beqJs_refl_aux (sizeOf v) v le_rfl

/-- Scanning the parent's children for the next sibling: children before the
first occurrence of the reference node are skipped, and the answer is the
head of what follows the occurrence. -/
theorem getNextSibling_split (node : JsValue) (l1 l2 : List JsValue)
    (h : ∀ x ∈ l1, beqJs x node = false) :
    getNextSibling (l1 ++ node :: l2) node = l2.head? := by
  unfold getNextSibling
  induction l1 with
  | nil =>
      rw [List.nil_append, getNextSiblingAux]
      simp only [if_neg Bool.false_ne_true, beqJs_refl]
      cases l2 <;> rfl
  | cons c rest ihr =>
      rw [List.cons_append, getNextSiblingAux]
      simp only [if_neg Bool.false_ne_true, h c (by simp)]
      exact ihr fun y hy => h y (by simp [hy])

theorem siblingsAfterAux_all (node : JsValue) (l : List JsValue) :
    siblingsAfterAux node l true = l := by
  induction l with
  | nil => rfl
  | cons c rest ihr => rw [siblingsAfterAux]; simp [ihr]

/-- Scanning the parent's children for later siblings: everything strictly
after the first occurrence of the reference node is collected, in order. -/
theorem handleSiblings_split (node : JsValue) (l1 l2 : List JsValue)
    (h : ∀ x ∈ l1, beqJs x node = false) :
    handleSiblings (l1 ++ node :: l2) node = l2 := by
  unfold handleSiblings
  induction l1 with
  | nil =>
      rw [List.nil_append, siblingsAfterAux]
      simp [beqJs_refl, siblingsAfterAux_all]
  | cons c rest ihr =>
      rw [List.cons_append, siblingsAfterAux]
      simp only [if_neg Bool.false_ne_true, h c (by simp), List.nil_append, Bool.false_or]
      exact ihr fun y hy => h y (by simp [hy])

/-- Element-level complement: on any target, the `!=` arm of a `Value`'s
`match` is the boolean negation of its default (`==`) arm, for every
`Value` variant. -/
theorem value_match_ne_not_eq (e : Value) (t : JsValue) :
    e.match t "!=" = !(e.match t "==") := by
  cases e <;> rfl

/-! ## Claims -/

/-- C1: the claim requires `[count>9]` to match a node whose resolved
attribute value is the number 10, under numeric comparison.  The source
instead compares the stringified values with JavaScript's relational
operators, which on strings are lexicographic, so the predicate evaluates
to false on that node. -/
theorem c1_ordering_is_lexicographic_defect :
    Value.match (.number 9) (.vNum 10) ">" = false ∧
    Attribute.match (.mk "count" (.value (.number 9)) ">")
      (.vNode "FooNode" "" [] [("count", .vNum 10)] []) = false := by
  refine ⟨rfl, ?_⟩
  rw [Attribute.match, AttrValue.matchOp]
  rfl

/-- C2 (counterexample): on a node exposing neither a field nor a callable
member named `key`, the predicate `[key=undefined]` does not match — the
absent marker is `null`, which renders as `"null"`, not `"undefined"`. -/
theorem c2_undefined_sentinel_counterexample :
    Attribute.match (.mk "key" (.value .undefined) "==")
      (.vNode "EmptyNode" "" [] [] []) = false := by
  rw [Attribute.match, AttrValue.matchOp]
  rfl

/-- C2 (amended): once a path segment resolves to absent (`null`), all
subsequent segments leave it absent; the Value layer renders the absent
result as the literal string `"null"`, so `[key=null]` matches a node on
which `key` does not resolve. -/
theorem c2_absent_short_circuits_to_null :
    (∀ segs : List String, segs.foldl resolveSegment .vNull = .vNull) ∧
    (∀ (t : JsValue) (k : String), t.jsFalsy = false → t.hasOwnProperty k = false →
      t.getMethod? k = none → resolveSegment t k = .vNull) ∧
    actualValueBase .vNull = "null" ∧
    Attribute.match (.mk "key" (.value .null) "==")
      (.vNode "EmptyNode" "" [] [] []) = true := by
  refine ⟨?_, ?_, rfl, by rw [Attribute.match, AttrValue.matchOp]; rfl⟩
  · intro segs
    induction segs with
    | nil => rfl
    | cons s rest ihr => exact ihr
  · intro t k h1 h2 h3
    rw [resolveSegment]
    simp [h1, h2, h3]

/-- C2 witness: the amended theorem applied to a node with no `key` member
and to a two-segment continuation of an absent target. -/
theorem c2_absent_short_circuits_to_null_witness :
    JsValue.jsFalsy (.vNode "EmptyNode" "" [] [] []) = false ∧
    JsValue.hasOwnProperty (.vNode "EmptyNode" "" [] [] []) "key" = false ∧
    JsValue.getMethod? (.vNode "EmptyNode" "" [] [] []) "key" = none ∧
    resolveSegment (.vNode "EmptyNode" "" [] [] []) "key" = .vNull ∧
    (["b", "c"] : List String).foldl resolveSegment .vNull = .vNull :=
  ⟨rfl, rfl, rfl,
   c2_absent_short_circuits_to_null.2.1 _ "key" rfl rfl rfl,
   c2_absent_short_circuits_to_null.1 ["b", "c"]⟩

/-- C6: over any expected element list, `in` and `not_in` are exact
complements on every non-array resolved target, and both are false on an
array target. -/
theorem c6_in_not_in_complement (av : ArrayValue) (t : JsValue) :
    (t.isArray = false → av.match t "in" = !(av.match t "not_in")) ∧
    (t.isArray = true → av.match t "in" = false ∧ av.match t "not_in" = false) := by
  constructor
  · intro h
    rw [ArrayValue.match, ArrayValue.match]
    simp [h, List.any_eq_not_all_not, value_match_ne_not_eq]
  · intro h
    rw [ArrayValue.match, ArrayValue.match]
    simp [h]

/-- C6 witness: the complement and the array cases at concrete inputs. -/
theorem c6_in_not_in_complement_witness :
    JsValue.isArray (.vNum 2) = false ∧
    ArrayValue.match (.mk (some (.number 1)) (some (.mk (some (.number 2)) none)))
      (.vNum 2) "in" =
      !(ArrayValue.match (.mk (some (.number 1)) (some (.mk (some (.number 2)) none)))
        (.vNum 2) "not_in") ∧
    JsValue.isArray (.vArr [.vNum 1]) = true ∧
    ArrayValue.match (.mk (some (.number 1)) none) (.vArr [.vNum 1]) "in" = false ∧
    ArrayValue.match (.mk (some (.number 1)) none) (.vArr [.vNum 1]) "not_in" = false := by
  refine ⟨rfl, (c6_in_not_in_complement _ _).1 rfl, rfl, ?_, ?_⟩
  · exact ((c6_in_not_in_complement (.mk (some (.number 1)) none) (.vArr [.vNum 1])).2 rfl).1
  · exact ((c6_in_not_in_complement (.mk (some (.number 1)) none) (.vArr [.vNum 1])).2 rfl).2

/-- C7: on a resolved text of length at least two, the `String` literal's
`actualValue` strips exactly one leading and one trailing character before
comparison. -/
theorem c7_string_actual_value_strips (v s : String) (h : 2 ≤ s.length) :
    Value.actualValue (.string v) (.vStr s) = String.mk ((s.data.drop 1).dropLast) := by
  have hbase : actualValueBase (.vStr s) = s := rfl
  rw [Value.actualValue, hbase, jsSubstring]
  have hl : (2 : Int) ≤ (s.length : Int) := by exact_mod_cast h
  have e1 : max 0 (min (1 : Int) ((s.length : Nat) : Int)) = 1 := by omega
  have e2 : max (0 : Int) (min (((s.length : Nat) : Int) - 1) ((s.length : Nat) : Int)) =
      ((s.length : Nat) : Int) - 1 := by omega
  simp only [e1, e2]
  have e3 : min (1 : Int) (((s.length : Nat) : Int) - 1) = 1 := by omega
  have e4 : max (1 : Int) (((s.length : Nat) : Int) - 1) = ((s.length : Nat) : Int) - 1 := by
    omega
  simp only [e3, e4]
  have e5 : ((1 : Int)).toNat = 1 := rfl
  have e6 : ((((s.length : Nat) : Int) - 1) - 1).toNat = s.length - 1 - 1 := by omega
  rw [e5, e6, List.dropLast_eq_take, List.length_drop]
  rfl

/-- C7 witness: the quoted source text `"foo"` compares as `foo`. -/
theorem c7_string_actual_value_strips_witness :
    2 ≤ ("\"foo\"" : String).length ∧
    Value.actualValue (.string "foo") (.vStr "\"foo\"") =
      String.mk ((("\"foo\"" : String).data.drop 1).dropLast) ∧
    Value.actualValue (.string "foo") (.vStr "\"foo\"") = "foo" :=
  ⟨by decide, c7_string_actual_value_strips "foo" "\"foo\"" (by decide), rfl⟩

/-- C8: compilation keeps the parser's expression on success; a thrown
`Error` whose diagnostic starts with `"Lexical error"` or `"Parse error"`
becomes a `SyntaxError` carrying the first three lines of the diagnostic;
any other thrown value propagates unchanged; nothing but an error is
produced on failure, so no matching can take place then. -/
theorem c8_compile_error_handling {α : Type} (r : α) (msg : String) :
    NodeQuery.compile (.ok r) = .ok r ∧
    ((jsStartsWith msg "Lexical error" || jsStartsWith msg "Parse error") = true →
      NodeQuery.compile (α := α) (.raised (.errorObj msg)) =
        .error (.syntaxError (truncateDiagnostic msg))) ∧
    ((jsStartsWith msg "Lexical error" || jsStartsWith msg "Parse error") = false →
      NodeQuery.compile (α := α) (.raised (.errorObj msg)) =
        .error (.propagated (.errorObj msg))) ∧
    NodeQuery.compile (α := α) (.raised .nonErrorValue) =
      .error (.propagated .nonErrorValue) := by
  refine ⟨rfl, ?_, ?_, rfl⟩ <;> intro h <;> simp [NodeQuery.compile, h]

/-- C8 witness: a four-line parse diagnostic is truncated to its first three
lines; a non-parse error is rethrown unchanged. -/
theorem c8_compile_error_handling_witness :
    (jsStartsWith "Parse error\nl2\nl3\nl4" "Lexical error" ||
      jsStartsWith "Parse error\nl2\nl3\nl4" "Parse error") = true ∧
    NodeQuery.compile (α := Nat) (.raised (.errorObj "Parse error\nl2\nl3\nl4")) =
      .error (.syntaxError (truncateDiagnostic "Parse error\nl2\nl3\nl4")) ∧
    truncateDiagnostic "Parse error\nl2\nl3\nl4" = "Parse error\nl2\nl3" ∧
    (jsStartsWith "boom" "Lexical error" || jsStartsWith "boom" "Parse error") = false ∧
    NodeQuery.compile (α := Nat) (.raised (.errorObj "boom")) =
      .error (.propagated (.errorObj "boom")) :=
  ⟨rfl, (c8_compile_error_handling (0 : Nat) "Parse error\nl2\nl3\nl4").2.1 rfl, rfl, rfl,
   (c8_compile_error_handling (0 : Nat) "boom").2.2.1 rfl⟩

/-- C9: any operator outside the explicitly handled cases falls through to
strict equality of the actual and expected strings, for every `Value`
variant; in particular the affix operators applied to a `Number` literal
behave as equality tests.  The dispatch is total: no arm raises. -/
theorem c9_unhandled_operator_falls_through :
    (∀ (v : Value) (t : JsValue) (op : String),
      op ∉ (["^=", "$=", "*=", "!=", ">=", ">", "<=", "<"] : List String) →
      Value.match v t op = (Value.actualValue v t == Value.expectedValue v)) ∧
    (∀ (n : Int) (t : JsValue) (op : String),
      op ∈ (["^=", "$=", "*="] : List String) →
      Value.match (.number n) t op =
        (Value.actualValue (.number n) t == Value.expectedValue (.number n))) := by
  constructor
  · intro v t op hop
    simp only [List.mem_cons, List.not_mem_nil, or_false, not_or] at hop
    obtain ⟨h1, h2, h3, h4, h5, h6, h7, h8⟩ := hop
    cases v <;>
      simp [Value.match, Value.matchDefault, Value.matchNumber, h1, h2, h3, h4, h5, h6, h7, h8]
  · intro n t op hop
    simp only [List.mem_cons, List.not_mem_nil, or_false] at hop
    rcases hop with h | h | h <;> subst h <;> rfl

/-- C9 witness: the unhandled operator `in` compares for equality on an
`Identifier`, and `^=` on a `Number` literal is an equality test, not an
affix test. -/
theorem c9_unhandled_operator_falls_through_witness :
    (("in" : String) ∉ (["^=", "$=", "*=", "!=", ">=", ">", "<=", "<"] : List String)) ∧
    Value.match (.identifier "ab") (.vStr "ab") "in" =
      (Value.actualValue (.identifier "ab") (.vStr "ab") ==
        Value.expectedValue (.identifier "ab")) ∧
    (("^=" : String) ∈ (["^=", "$=", "*="] : List String)) ∧
    Value.match (.number 1) (.vNum 12) "^=" =
      (Value.actualValue (.number 1) (.vNum 12) == Value.expectedValue (.number 1)) ∧
    Value.match (.number 1) (.vNum 12) "^=" = false :=
  ⟨by decide,
   c9_unhandled_operator_falls_through.1 (.identifier "ab") (.vStr "ab") "in" (by decide),
   by decide,
   c9_unhandled_operator_falls_through.2 1 (.vNum 12) "^=" (by decide),
   rfl⟩

/-- C10: a falsy intermediate resolved value (null, undefined, 0, the empty
string, or false) stops the key-path walk and is itself returned as the
final resolved target; only a segment that is neither an own property nor a
callable member of a truthy target sets the target to `null`. -/
theorem c10_falsy_stops_resolution :
    (∀ (t : JsValue) (segs : List String), t.jsFalsy = true →
      segs.foldl resolveSegment t = t) ∧
    (∀ (t : JsValue) (k : String), t.jsFalsy = false → t.hasOwnProperty k = false →
      t.getMethod? k = none → resolveSegment t k = .vNull) := by
  constructor
  · intro t segs h
    induction segs with
    | nil => rfl
    | cons s rest ihr => rw [List.foldl_cons, resolveSegment, if_pos h]; exact ihr
  · intro t k h1 h2 h3
    rw [resolveSegment]
    simp [h1, h2, h3]

/-- C10 witness: the number `0` resolved for segment `a` of `a.b.c` survives
unchanged as the final target; a truthy string with no `foo` member resolves
to `null`. -/
theorem c10_falsy_stops_resolution_witness :
    JsValue.jsFalsy (.vNum 0) = true ∧
    (["b", "c"] : List String).foldl resolveSegment (.vNum 0) = .vNum 0 ∧
    getTargetNode (.vNode "N" "" [] [("a", .vNum 0)] []) "a.b.c" = .vNum 0 ∧
    JsValue.jsFalsy (.vStr "x") = false ∧
    JsValue.hasOwnProperty (.vStr "x") "foo" = false ∧
    JsValue.getMethod? (.vStr "x") "foo" = none ∧
    resolveSegment (.vStr "x") "foo" = .vNull :=
  ⟨rfl, c10_falsy_stops_resolution.1 (.vNum 0) ["b", "c"] rfl, rfl, rfl, rfl, rfl,
   c10_falsy_stops_resolution.2 (.vStr "x") "foo" rfl rfl rfl⟩

/-- C3: a relationship-free type selector with descendant matching returns
exactly the nodes among the root and its preorder descendants whose reported
type equals the selector's type name, in preorder, with no duplicates
beyond those of the traversal itself. -/
theorem c3_type_selector_preorder (nodeType : String) (root : JsValue)
    (pc : List JsValue) (h : root.isArray = false) :
    Selector.queryNodes (.mk (some (.mk nodeType none)) none) root pc true =
      (root :: descendantsPre root).filter fun n => n.kindIs nodeType := by
  have hm : Selector.match (.mk (some (.mk nodeType none)) none) =
      fun n => n.kindIs nodeType := by
    funext n
    simp [Selector.match, SimpleSelector.match]
  rw [Selector.queryNodes]
  · simp only [Selector.relationship, relTruthy, Bool.false_and, Bool.false_eq_true,
      if_false, if_true, hm, List.filter_cons]
    cases hk : root.kindIs nodeType <;> simp [hk]
  · intro a ha
    subst ha
    simp [JsValue.isArray] at h

/-- C3 witness: the type selector `.Foo` over a three-level sample tree
selects exactly its three `Foo` nodes, in preorder. -/
theorem c3_type_selector_preorder_witness :
    JsValue.isArray sampleTree = false ∧
    Selector.queryNodes (.mk (some (.mk "Foo" none)) none) sampleTree [] true =
      ((sampleTree :: descendantsPre sampleTree).filter fun n => n.kindIs "Foo") ∧
    Selector.queryNodes (.mk (some (.mk "Foo" none)) none) sampleTree [] true =
      [fooA, fooB, fooE] :=
  ⟨rfl, c3_type_selector_preorder "Foo" sampleTree [] rfl, rfl⟩

/-- C4: the adjacent-sibling relationship yields at most one candidate — the
parent's child immediately after the context node — kept only when its type
matches. -/
theorem c4_adjacent_sibling_at_most_one (nodeType : String) (node : JsValue)
    (l1 l2 : List JsValue) (h : ∀ x ∈ l1, beqJs x node = false) :
    Selector.findNodesByRelationship (.mk (some (.mk nodeType none)) (some "+"))
        node (l1 ++ node :: l2) =
      l2.head?.toList.filter (fun c => c.kindIs nodeType) := by
  have hm : ∀ n : JsValue,
      Selector.match (.mk (some (.mk nodeType none)) (some "+")) n = n.kindIs nodeType := by
    intro n
    simp [Selector.match, SimpleSelector.match]
  have hred : ∀ (n : JsValue) (pc : List JsValue),
      Selector.findNodesByRelationship (.mk (some (.mk nodeType none)) (some "+")) n pc =
        (match getNextSibling pc n with
         | some sib =>
             if Selector.match (.mk (some (.mk nodeType none)) (some "+")) sib
             then [sib] else []
         | none => []) :=
    fun n pc => rfl
  rw [hred, getNextSibling_split node l1 l2 h]
  cases l2 with
  | nil => rfl
  | cons c rest =>
      simp only [List.head?_cons, Option.toList_some, hm]
      cases hk : JsValue.kindIs c nodeType <;> simp [hk]

/-- C4 witness: with parent children `[barC, fooB]`, the `+` relationship on
`barC` returns exactly the matching immediate next sibling `fooB`, and on
`fooB` (no following sibling) returns nothing. -/
theorem c4_adjacent_sibling_at_most_one_witness :
    (∀ x ∈ ([] : List JsValue), beqJs x barC = false) ∧
    Selector.findNodesByRelationship (.mk (some (.mk "Foo" none)) (some "+"))
        barC ([] ++ barC :: [fooB]) =
      ([fooB] : List JsValue).head?.toList.filter (fun c => c.kindIs "Foo") ∧
    Selector.findNodesByRelationship (.mk (some (.mk "Foo" none)) (some "+"))
        barC [barC, fooB] = [fooB] ∧
    Selector.findNodesByRelationship (.mk (some (.mk "Foo" none)) (some "+"))
        fooB [barC, fooB] = [] :=
  ⟨by simp, c4_adjacent_sibling_at_most_one "Foo" barC [] [fooB] (by simp), rfl, rfl⟩

/-- C5: the general-sibling relationship returns exactly the siblings
strictly after the context node whose type matches, in the parent's child
order. -/
theorem c5_general_sibling_later_matches (nodeType : String) (node : JsValue)
    (l1 l2 : List JsValue) (h : ∀ x ∈ l1, beqJs x node = false) :
    Selector.findNodesByRelationship (.mk (some (.mk nodeType none)) (some "~"))
        node (l1 ++ node :: l2) =
      l2.filter fun c => c.kindIs nodeType := by
  have hred : ∀ (n : JsValue) (pc : List JsValue),
      Selector.findNodesByRelationship (.mk (some (.mk nodeType none)) (some "~")) n pc =
        (handleSiblings pc n).filter
          (Selector.match (.mk (some (.mk nodeType none)) (some "~"))) :=
    fun n pc => rfl
  rw [hred, handleSiblings_split node l1 l2 h]
  apply List.filter_congr
  intro x _
  simp [Selector.match, SimpleSelector.match]

/-- C5 witness: with parent children `[fooB, barC, fooE, barD]`, the `~`
relationship on `fooB` returns its later `Foo` siblings, in order. -/
theorem c5_general_sibling_later_matches_witness :
    (∀ x ∈ ([] : List JsValue), beqJs x fooB = false) ∧
    Selector.findNodesByRelationship (.mk (some (.mk "Foo" none)) (some "~"))
        fooB ([] ++ fooB :: [barC, fooE, barD]) =
      ([barC, fooE, barD] : List JsValue).filter (fun c => c.kindIs "Foo") ∧
    Selector.findNodesByRelationship (.mk (some (.mk "Foo" none)) (some "~"))
        fooB [fooB, barC, fooE, barD] = [fooE] :=
  ⟨by simp, c5_general_sibling_later_matches "Foo" fooB [] [barC, fooE, barD] (by simp), rfl⟩
